import Mathlib

/-!
# CLD speech-to-text pipeline: verification of the specification claims

This file gives a shallow embedding of the core pipeline of the CLD
(hotkey-activated local speech-to-text) repository and proves, or refutes,
the specification claims about it.

Embedded components:
* `WhisperEngine._chunk_audio` / `_join_chunks` / `transcribe` / `load_model`
  (src/cld/engines/whisper.py)
* `AudioRecorder` recording buffer and `_compute_max_chunks` (src/cld/recorder.py)
* `HotkeyListener._on_press` / `_on_release` (src/cld/hotkey.py)
* `STTDaemon._on_recording_start` / `_on_recording_stop` / `_do_transcription`
  / `_check_max_recording_time` (src/cld/daemon_service.py)

Machine integers are embedded as `Nat`; wall-clock instants as `ℚ`; numpy
arrays as `List`; Python `deque` as `List` with explicit max-length dropping.
-/

set_option autoImplicit false
set_option maxRecDepth 8000

namespace CLD

/-! ## Whisper engine: audio chunking (`WhisperEngine._chunk_audio`)

Audio chunking constants for long recordings, from whisper.py. -/

def CHUNK_DURATION_SECONDS : ℕ := 60

def CHUNK_OVERLAP_SECONDS : ℕ := 5

variable {α : Type*}

/-- Python slice `l[s:e]` on a list (both bounds clamped, `s ≤ e` expected). -/
def slice (l : List α) (s e : ℕ) : List α := (l.drop s).take (e - s)

/-- The `while start < total_samples` loop of `WhisperEngine._chunk_audio`.
`fuel` bounds the number of iterations (the Python loop terminates whenever
`sample_rate > 0`, and `audio.length + 1` iterations always suffice then);
`start` and `chunks` are the Python loop variables. -/
def chunkLoop (audio : List α) (sr : ℕ) : ℕ → ℕ → List (List α) → List (List α)
  | 0, _, chunks => chunks
  | fuel + 1, start, chunks =>
    let total := audio.length
    let chunkSamples := CHUNK_DURATION_SECONDS * sr
    let overlapSamples := CHUNK_OVERLAP_SECONDS * sr
    if start < total then
      let e := min (start + chunkSamples) total
      let chunks2 := chunks ++ [slice audio start e]
      let start2 := start + (chunkSamples - overlapSamples)
      if total - start2 < sr * 10 ∧ start2 < total then
        -- `chunks[-1] = audio[start - (chunk_samples - overlap_samples):]`, then break
        if chunks2.isEmpty then chunks2
        else chunks2.dropLast ++ [audio.drop (start2 - (chunkSamples - overlapSamples))]
      else
        chunkLoop audio sr fuel start2 chunks2
    else chunks

/-- `WhisperEngine._chunk_audio`: split audio into overlapping chunks for long
recordings. If the audio fits in one chunk it is returned as-is. -/
def chunkAudio (audio : List α) (sr : ℕ) : List (List α) :=
  if audio.length ≤ CHUNK_DURATION_SECONDS * sr then [audio]
  else chunkLoop audio sr (audio.length + 1) 0 []

example : (chunkAudio (List.replicate 125 (0 : ℕ)) 1).map List.length = [60, 60, 15] := by decide

example : (chunkAudio (List.replicate 116 (0 : ℕ)) 1).map List.length = [60, 61] := by decide

example : chunkAudio (List.replicate 30 (0 : ℕ)) 1 = [List.replicate 30 0] := by decide

/-- `chunk_samples - overlap_samples`: the distance between the start offsets
of two consecutive chunks. -/
def stepSamples (sr : ℕ) : ℕ := CHUNK_DURATION_SECONDS * sr - CHUNK_OVERLAP_SECONDS * sr

theorem slice_length (l : List α) (s e : ℕ) (h1 : s ≤ e) (h2 : e ≤ l.length) :
    (slice l s e).length = e - s := by
  simp only [slice, List.length_take, List.length_drop]
  omega

theorem slice_to_end (l : List α) (s : ℕ) : slice l s l.length = l.drop s := by
  simp only [slice]
  rw [← List.length_drop s l, List.take_length]

theorem chunkLoop_exit (audio : List α) (sr fuel start : ℕ) (chunks : List (List α))
    (h : audio.length ≤ start) : chunkLoop audio sr fuel start chunks = chunks := by
  cases fuel with
  | zero => rfl
  | succ fuel => simp [chunkLoop, Nat.not_lt.mpr h]

/-- Characterization of the `_chunk_audio` loop: starting at offset `start`
with at least `10 * sr` samples remaining, it appends a nonempty list of
chunks; chunk `i` is the slice of the audio starting at offset
`start + i * stepSamples sr`; every chunk except the last extends exactly
`chunk_samples` past its start; every chunk covers at least `sr * 10` and
strictly fewer than `stepSamples sr + sr * 10` samples. -/
theorem chunkLoop_char (audio : List α) (sr : ℕ) (hsr : 0 < sr) :
    ∀ fuel start chunks, start < audio.length →
      sr * 10 ≤ audio.length - start →
      audio.length - start ≤ fuel →
      ∃ tail : List (List α), tail ≠ [] ∧
        chunkLoop audio sr fuel start chunks = chunks ++ tail ∧
        ∀ i (hi : i < tail.length),
          ∃ e, start + i * stepSamples sr < e ∧ e ≤ audio.length ∧
            tail.get ⟨i, hi⟩ = slice audio (start + i * stepSamples sr) e ∧
            (i + 1 < tail.length → e = start + i * stepSamples sr + CHUNK_DURATION_SECONDS * sr) ∧
            sr * 10 ≤ e - (start + i * stepSamples sr) ∧
            e - (start + i * stepSamples sr) < stepSamples sr + sr * 10 := by
  intro fuel
  induction fuel with
  | zero =>
    intro start chunks hstart hmin hfuel
    exact absurd hfuel (by omega)
  | succ fuel ih =>
    intro start chunks hstart hmin hfuel
    have hC : CHUNK_DURATION_SECONDS = 60 := rfl
    have hO : CHUNK_OVERLAP_SECONDS = 5 := rfl
    have hstep : stepSamples sr = CHUNK_DURATION_SECONDS * sr - CHUNK_OVERLAP_SECONDS * sr := rfl
    rw [chunkLoop]
    simp only [if_pos hstart]
    by_cases hcond :
        audio.length - (start + (CHUNK_DURATION_SECONDS * sr - CHUNK_OVERLAP_SECONDS * sr)) <
            sr * 10 ∧
          start + (CHUNK_DURATION_SECONDS * sr - CHUNK_OVERLAP_SECONDS * sr) < audio.length
    · -- absorb branch: the final remainder is shorter than 10 s; the last chunk
      -- is replaced by the slice running from its own start to the end of the audio
      rw [if_pos hcond]
      have hne : (chunks ++
          [slice audio start
            (min (start + CHUNK_DURATION_SECONDS * sr) audio.length)]).isEmpty = false := by
        simp
      rw [hne]
      simp only [Bool.false_eq_true, if_false, List.dropLast_concat, Nat.add_sub_cancel]
      refine ⟨[slice audio start audio.length], by simp, by rw [← slice_to_end], ?_⟩
      intro i hi
      simp only [List.length_singleton] at hi
      interval_cases i
      refine ⟨audio.length, ?_, le_refl _, by simp, by simp, ?_, ?_⟩ <;>
        · simp only [Nat.zero_mul, Nat.add_zero, List.length_singleton, hstep, hC, hO] at *
          omega
    · rw [if_neg hcond]
      by_cases hst2 :
          start + (CHUNK_DURATION_SECONDS * sr - CHUNK_OVERLAP_SECONDS * sr) < audio.length
      · -- loop continues: the remainder is at least 10 s, so the chunk just
        -- emitted is a full 60 s chunk and the loop recurses
        have hmin2 : sr * 10 ≤
            audio.length - (start + (CHUNK_DURATION_SECONDS * sr - CHUNK_OVERLAP_SECONDS * sr)) := by
          rcases Nat.lt_or_ge
            (audio.length - (start + (CHUNK_DURATION_SECONDS * sr - CHUNK_OVERLAP_SECONDS * sr)))
            (sr * 10) with h | h
          · exact absurd ⟨h, hst2⟩ hcond
          · exact h
        have hfull : start + CHUNK_DURATION_SECONDS * sr ≤ audio.length := by
          rw [hC, hO] at *
          omega
        have hmineq : min (start + CHUNK_DURATION_SECONDS * sr) audio.length =
            start + CHUNK_DURATION_SECONDS * sr := Nat.min_eq_left hfull
        obtain ⟨tail, htne, heq, hprops⟩ := ih
          (start + (CHUNK_DURATION_SECONDS * sr - CHUNK_OVERLAP_SECONDS * sr))
          (chunks ++
            [slice audio start (min (start + CHUNK_DURATION_SECONDS * sr) audio.length)])
          hst2 hmin2 (by rw [hC, hO] at *; omega)
        refine ⟨slice audio start (min (start + CHUNK_DURATION_SECONDS * sr) audio.length) :: tail,
          by simp, by rw [heq]; simp, ?_⟩
        intro i hi
        match i with
        | 0 =>
          refine ⟨start + CHUNK_DURATION_SECONDS * sr, ?_, hfull, ?_, ?_, ?_, ?_⟩
          · rw [hC] at *; omega
          · simp [hmineq]
          · intro _; rw [Nat.zero_mul, Nat.add_zero]
          · rw [hstep, hC, hO] at *; omega
          · rw [hstep, hC, hO] at *; omega
        | j + 1 =>
          have hj : j < tail.length := by simpa using hi
          obtain ⟨e, he1, he2, he3, he4, he5, he6⟩ := hprops j hj
          have harith :
              start + (CHUNK_DURATION_SECONDS * sr - CHUNK_OVERLAP_SECONDS * sr) +
                j * stepSamples sr = start + (j + 1) * stepSamples sr := by
            rw [hstep]; ring
          rw [harith] at he1 he3 he4 he5 he6
          refine ⟨e, he1, he2, ?_, ?_, he5, he6⟩
          · simpa using he3
          · intro h
            exact he4 (by simpa using h)
      · -- the next start offset already lies past the end: the recursive call
        -- returns immediately and the chunk just emitted is the last one
        have hexit : audio.length ≤
            start + (CHUNK_DURATION_SECONDS * sr - CHUNK_OVERLAP_SECONDS * sr) :=
          Nat.le_of_not_lt hst2
        rw [chunkLoop_exit audio sr fuel _ _ hexit]
        refine ⟨[slice audio start (min (start + CHUNK_DURATION_SECONDS * sr) audio.length)],
          by simp, rfl, ?_⟩
        intro i hi
        simp only [List.length_singleton] at hi
        interval_cases i
        refine ⟨min (start + CHUNK_DURATION_SECONDS * sr) audio.length, ?_, min_le_right _ _,
          by simp, by simp, ?_, ?_⟩ <;>
          · rcases Nat.le_total (start + CHUNK_DURATION_SECONDS * sr) audio.length with h | h
            · rw [Nat.min_eq_left h] at *
              rw [hstep, hC, hO] at *
              omega
            · rw [Nat.min_eq_right h] at *
              rw [hstep, hC, hO] at *
              omega

theorem stepSamples_eq (sr : ℕ) : stepSamples sr = 55 * sr := by
  simp only [stepSamples, CHUNK_DURATION_SECONDS, CHUNK_OVERLAP_SECONDS]
  omega

/-- **C1** (amended): if the utterance fits in 60 s it yields exactly one chunk
(the whole array). Otherwise (for a positive sample rate) chunk `i` is the
contiguous slice of the audio starting at offset `i * 55 * sr` (so consecutive
chunks overlap by exactly 5 s of the 60 s window); every chunk except the last
is exactly 60 s long; every chunk is at least 10 s and *strictly less than
65 s* long — the final chunk may exceed 60 s, because a remainder shorter than
10 s is absorbed into it. -/
theorem chunkAudio_spec (audio : List α) (sr : ℕ) (hsr : 0 < sr) :
    (audio.length ≤ 60 * sr → chunkAudio audio sr = [audio]) ∧
    (60 * sr < audio.length →
      chunkAudio audio sr ≠ [] ∧
      (∀ c ∈ chunkAudio audio sr, sr * 10 ≤ c.length ∧ c.length < 65 * sr) ∧
      (∀ i (hi : i < (chunkAudio audio sr).length),
        (chunkAudio audio sr).get ⟨i, hi⟩ =
          slice audio (i * (55 * sr))
            (i * (55 * sr) + ((chunkAudio audio sr).get ⟨i, hi⟩).length)) ∧
      (∀ i (hi : i + 1 < (chunkAudio audio sr).length),
        ((chunkAudio audio sr).get ⟨i, Nat.lt_of_succ_lt hi⟩).length = 60 * sr) ∧
      (∀ i (hi : i + 1 < (chunkAudio audio sr).length),
        ((chunkAudio audio sr).get ⟨i, Nat.lt_of_succ_lt hi⟩).drop (55 * sr) =
          ((chunkAudio audio sr).get ⟨i + 1, hi⟩).take (5 * sr))) := by
  constructor
  · intro h
    rw [chunkAudio, if_pos (by simpa [CHUNK_DURATION_SECONDS] using h)]
  · intro hlong
    have hcond : ¬ audio.length ≤ CHUNK_DURATION_SECONDS * sr := by
      simp only [CHUNK_DURATION_SECONDS]
      omega
    obtain ⟨tail, htne, heq, hprops⟩ := chunkLoop_char audio sr hsr (audio.length + 1) 0 []
      (by omega) (by simp only [Nat.sub_zero]; omega) (by omega)
    have hca : chunkAudio audio sr = tail := by
      rw [chunkAudio, if_neg hcond, heq, List.nil_append]
    have hprops2 : ∀ i (hi : i < tail.length),
        ∃ e, i * (55 * sr) < e ∧ e ≤ audio.length ∧
          tail.get ⟨i, hi⟩ = slice audio (i * (55 * sr)) e ∧
          (i + 1 < tail.length → e = i * (55 * sr) + 60 * sr) ∧
          sr * 10 ≤ e - i * (55 * sr) ∧ e - i * (55 * sr) < 65 * sr := by
      intro i hi
      obtain ⟨e, h1, h2, h3, h4, h5, h6⟩ := hprops i hi
      simp only [stepSamples_eq, CHUNK_DURATION_SECONDS, Nat.zero_add] at h1 h3 h4 h5 h6
      exact ⟨e, h1, h2, h3, h4, h5, by omega⟩
    refine ⟨?_, ?_, ?_, ?_, ?_⟩
    · rw [hca]; exact htne
    · rw [hca]
      intro c hc
      rw [List.mem_iff_get] at hc
      obtain ⟨⟨i, hi⟩, rfl⟩ := hc
      obtain ⟨e, h1, h2, h3, _, h5, h6⟩ := hprops2 i hi
      rw [h3, slice_length _ _ _ (le_of_lt h1) h2]
      exact ⟨h5, h6⟩
    · rw [hca]
      intro i hi
      obtain ⟨e, h1, h2, h3, _, h5, h6⟩ := hprops2 i hi
      rw [h3, slice_length _ _ _ (le_of_lt h1) h2]
      have : i * (55 * sr) + (e - i * (55 * sr)) = e := by omega
      rw [this]
    · rw [hca]
      intro i hi
      obtain ⟨e, h1, h2, h3, h4, h5, h6⟩ := hprops2 i (Nat.lt_of_succ_lt hi)
      rw [h3, slice_length _ _ _ (le_of_lt h1) h2, h4 hi]
      omega
    · rw [hca]
      intro i hi
      obtain ⟨e, h1, h2, h3, h4, h5, h6⟩ := hprops2 i (Nat.lt_of_succ_lt hi)
      obtain ⟨f, g1, g2, g3, g4, g5, g6⟩ := hprops2 (i + 1) hi
      rw [h3, g3, h4 hi]
      simp only [slice]
      have hlen1 : i * (55 * sr) + 60 * sr - i * (55 * sr) = 60 * sr := by omega
      rw [hlen1, List.drop_take, List.drop_drop, List.take_take]
      have hp2 : i * (55 * sr) + 55 * sr = (i + 1) * (55 * sr) := by ring
      have hmin : min (5 * sr) (f - (i + 1) * (55 * sr)) = 5 * sr := by omega
      have h60 : 60 * sr - 55 * sr = 5 * sr := by omega
      rw [h60, hp2, hmin]

/-- **C1 counterexample**: for a 116 s utterance (at a sample rate of 1) the
chunking step produces chunks of 60 s and 61 s — the absorbed final chunk
exceeds the claimed 60 s bound, refuting "every produced chunk is at most 60
seconds long". -/
theorem chunkAudio_chunk_exceeds_60s :
    ¬ ∀ c ∈ chunkAudio (List.replicate 116 (0 : ℕ)) 1, c.length ≤ 60 * 1 := by decide

/-- Witness for `chunkAudio_spec` at a concrete input: a 30 s utterance at a
sample rate of 1 yields exactly one chunk, the whole array. -/
theorem chunkAudio_spec_witness :
    0 < 1 ∧ chunkAudio (List.replicate 30 (0 : ℕ)) 1 = [List.replicate 30 0] :=
  ⟨Nat.one_pos, (chunkAudio_spec (List.replicate 30 (0 : ℕ)) 1 Nat.one_pos).1 (by decide)⟩

/-! ## Whisper engine: chunk joining (`WhisperEngine._join_chunks`)

Python `str` values are embedded as `List Char`. `str.split()` (split on
whitespace runs, no empty tokens), `str.strip()` and `" ".join(...)` are
implemented structurally below with Python semantics, because the chunk-join
code manipulates words obtained from them. -/

/-- Accumulator-style worker for `pySplit`; `acc` holds the current word
reversed. -/
def splitAux : List Char → List Char → List (List Char)
  | [], acc => if acc.isEmpty then [] else [acc.reverse]
  | c :: cs, acc =>
    if c.isWhitespace then
      if acc.isEmpty then splitAux cs [] else acc.reverse :: splitAux cs []
    else splitAux cs (c :: acc)

/-- Python `s.split()`: the maximal whitespace-free nonempty tokens of `s`. -/
def pySplit (s : List Char) : List (List Char) := splitAux s []

/-- Python `s.strip()`: remove leading and trailing whitespace. -/
def pyStrip (s : List Char) : List Char :=
  ((s.dropWhile Char.isWhitespace).reverse.dropWhile Char.isWhitespace).reverse

example : pySplit " hello  the quick fox ".toList =
    ["hello".toList, "the".toList, "quick".toList, "fox".toList] := by decide

example : pyStrip "  a b a b ".toList = "a b a b".toList := by decide

/-- The `for overlap_len in range(5, 0, -1)` search of
`WhisperEngine._join_chunks`: the first (largest) admissible overlap length,
counting down from the given bound. -/
def findOverlap (jw nw : List (List Char)) : ℕ → Option ℕ
  | 0 => none
  | k + 1 =>
    if k + 1 ≤ jw.length ∧ k + 1 ≤ nw.length ∧
        jw.drop (jw.length - (k + 1)) = nw.take (k + 1) then some (k + 1)
    else findOverlap jw nw k

/-- One iteration of the `for i in range(1, len(results))` loop body of
`WhisperEngine._join_chunks`: append one chunk text to the accumulated text,
dropping a detected word overlap at the boundary. -/
def joinStep (joined next : List Char) : List Char :=
  if next.isEmpty then joined
  else
    let joined_words := pySplit joined
    let next_words := pySplit next
    if 3 ≤ joined_words.length ∧ 3 ≤ next_words.length then
      match findOverlap joined_words next_words 5 with
      | some k => joined ++ [' '] ++ List.intercalate [' '] (next_words.drop k)
      | none => joined ++ [' '] ++ next
    else joined ++ [' '] ++ next

/-- `WhisperEngine._join_chunks`: join chunk transcriptions, handling overlap
artifacts at the boundaries. -/
def joinChunks : List (List Char) → List Char
  | [] => []
  | [r] => r
  | r :: rest => pyStrip (rest.foldl joinStep r)

/-- The claim's overlap condition: the last `k` words of the accumulated text
equal the first `k` words of the next chunk's text (stated from the spec, to
compare with what `joinStep` actually tests). -/
def wordsOverlapAt (jw nw : List (List Char)) (k : ℕ) : Prop :=
  k ≤ jw.length ∧ k ≤ nw.length ∧ jw.drop (jw.length - k) = nw.take k

instance wordsOverlapAt.instDecidable (jw nw : List (List Char)) (k : ℕ) :
    Decidable (wordsOverlapAt jw nw k) := by
  unfold wordsOverlapAt
  exact inferInstance

theorem findOverlap_eq_some (jw nw : List (List Char)) (K : ℕ) (hK : 1 ≤ K) :
    ∀ n, K ≤ n → wordsOverlapAt jw nw K →
      (∀ j, K < j → j ≤ n → ¬ wordsOverlapAt jw nw j) →
      findOverlap jw nw n = some K := by
  intro n
  induction n with
  | zero => intro h _ _; omega
  | succ n ih =>
    intro hKn hov hnone
    simp only [findOverlap]
    rcases Nat.lt_or_ge K (n + 1) with h | h
    · rw [if_neg]
      · exact ih (by omega) hov (fun j hj1 hj2 => hnone j hj1 (by omega))
      · exact fun hc => hnone (n + 1) h (le_refl _) ⟨hc.1, hc.2.1, hc.2.2⟩
    · have hKeq : K = n + 1 := by omega
      subst hKeq
      rw [if_pos ⟨hov.1, hov.2.1, hov.2.2⟩]

theorem findOverlap_eq_none (jw nw : List (List Char)) :
    ∀ n, (∀ j, 1 ≤ j → j ≤ n → ¬ wordsOverlapAt jw nw j) → findOverlap jw nw n = none := by
  intro n
  induction n with
  | zero => intro _; rfl
  | succ n ih =>
    intro hnone
    simp only [findOverlap]
    rw [if_neg]
    · exact ih fun j h1 h2 => hnone j h1 (by omega)
    · exact fun hc => hnone (n + 1) (by omega) (le_refl _) ⟨hc.1, hc.2.1, hc.2.2⟩

theorem isEmpty_false_of_ne_nil (l : List α) (h : l ≠ []) : ¬ l.isEmpty = true := by
  cases l with
  | nil => exact absurd rfl h
  | cons c cs => simp [List.isEmpty]

/-- **C2** (amended): at each boundary the join step tests overlap lengths `K`
from 5 down to 1 *provided both the accumulated text and the next chunk's text
have at least 3 words*: the largest matching `K ≤ 5` wins and the duplicated
`K` words are dropped from the next chunk; if no tested length matches, or if
either side has fewer than 3 words, the texts are concatenated unmodified.
The spec's own example joins as claimed. -/
theorem joinChunks_spec :
    (∀ joined next, next ≠ [] →
      3 ≤ (pySplit joined).length → 3 ≤ (pySplit next).length →
      ∀ K, 1 ≤ K → K ≤ 5 → wordsOverlapAt (pySplit joined) (pySplit next) K →
      (∀ j, K < j → j ≤ 5 → ¬ wordsOverlapAt (pySplit joined) (pySplit next) j) →
      joinStep joined next =
        joined ++ [' '] ++ List.intercalate [' '] ((pySplit next).drop K)) ∧
    (∀ joined next, next ≠ [] →
      (∀ j, 1 ≤ j → j ≤ 5 → ¬ wordsOverlapAt (pySplit joined) (pySplit next) j) →
      joinStep joined next = joined ++ [' '] ++ next) ∧
    (∀ joined next, next ≠ [] →
      ((pySplit joined).length < 3 ∨ (pySplit next).length < 3) →
      joinStep joined next = joined ++ [' '] ++ next) ∧
    joinChunks ["hello the quick fox".toList, "the quick fox jumps".toList] =
      "hello the quick fox jumps".toList := by
  refine ⟨?_, ?_, ?_, by decide⟩
  · intro joined next hne h3j h3n K hK1 hK5 hov hnone
    have hfind := findOverlap_eq_some (pySplit joined) (pySplit next) K hK1 5 hK5 hov hnone
    simp only [joinStep, if_neg (isEmpty_false_of_ne_nil next hne), if_pos (And.intro h3j h3n),
      hfind]
  · intro joined next hne hnone
    have hfind := findOverlap_eq_none (pySplit joined) (pySplit next) 5 hnone
    by_cases h3 : 3 ≤ (pySplit joined).length ∧ 3 ≤ (pySplit next).length
    · simp only [joinStep, if_neg (isEmpty_false_of_ne_nil next hne), if_pos h3, hfind]
    · simp only [joinStep, if_neg (isEmpty_false_of_ne_nil next hne), if_neg h3]
  · intro joined next hne hshort
    have h3 : ¬ (3 ≤ (pySplit joined).length ∧ 3 ≤ (pySplit next).length) := by omega
    simp only [joinStep, if_neg (isEmpty_false_of_ne_nil next hne), if_neg h3]

/-- **C2 counterexample**: the two-word texts `"a b"` and `"a b"` overlap at
length 2, yet the join step concatenates them unmodified (the dedup search is
skipped entirely when either side has fewer than 3 words), refuting the
claim that overlap lengths 5..1 are tested at every boundary. -/
theorem joinChunks_skips_short_texts :
    wordsOverlapAt (pySplit "a b".toList) (pySplit "a b".toList) 2 ∧
    joinChunks ["a b".toList, "a b".toList] = "a b a b".toList := by
  exact ⟨by decide, by decide⟩

/-- Witness for `joinChunks_spec` at a concrete input: the spec's example
boundary with overlap length 3. -/
theorem joinChunks_spec_witness :
    joinStep "hello the quick fox".toList "the quick fox jumps".toList =
      "hello the quick fox".toList ++ [' '] ++
        List.intercalate [' '] ((pySplit "the quick fox jumps".toList).drop 3) :=
  joinChunks_spec.1 "hello the quick fox".toList "the quick fox jumps".toList (by decide)
    (by decide) (by decide) 3 (by decide) (by decide) (by decide)
    (by intro j h1 h2; interval_cases j <;> decide)

/-! ## Audio recorder (`AudioRecorder`, recorder.py)

One audio block (one callback invocation's `indata`) is a `List α` of
samples; the recording buffer and the pre-roll ring are Python `deque`s. -/

/-- Python `collections.deque(maxlen=m).append(x)`: appending to a full deque
silently discards the oldest element; `none` is an unbounded deque. -/
def dequeAppend (maxlen : Option ℕ) (q : List α) (x : α) : List α :=
  match maxlen with
  | none => q ++ [x]
  | some m => if q.length < m then q ++ [x] else (q ++ [x]).drop (q.length + 1 - m)

/-- `AudioRecorder._compute_max_chunks`: `None` when no max recording time is
configured, otherwise `max(1, ceil(max(1, max_seconds) * sample_rate /
blocksize))` (Python computes the quotient in floating point; here it is
exact — `blocksize = 0` would raise in Python and is excluded by use). -/
def computeMaxChunks (maxRecordingSeconds sampleRate blocksize : ℕ) : Option ℕ :=
  if maxRecordingSeconds = 0 then none
  else
    some (max 1 ((max 1 maxRecordingSeconds * sampleRate + blocksize - 1) / blocksize))

/-- The buffer-store branch of `AudioRecorder._audio_callback` (the
level/spectrum analytics computed earlier in the callback never touch the
buffers): while recording the block is appended to `_recorded_chunks`
(deque capped at `_max_chunks`), otherwise to the pre-roll ring. -/
def audioCallbackStore (maxChunks : Option ℕ) (prerollChunks : ℕ) (recording : Bool)
    (recorded preroll : List (List α)) (block : List α) :
    List (List α) × List (List α) :=
  if recording then (dequeAppend maxChunks recorded block, preroll)
  else (recorded, dequeAppend (some prerollChunks) preroll block)

/-- The recording buffer after a run of audio callbacks in recording state,
starting from the fresh (empty) buffer created by `AudioRecorder.start`. -/
def recordBuffer (maxChunks : Option ℕ) (blocks : List (List α)) : List (List α) :=
  blocks.foldl (dequeAppend maxChunks) []

theorem audioCallbackStore_recording (maxChunks : Option ℕ) (p : ℕ)
    (recorded preroll : List (List α)) (block : List α) :
    (audioCallbackStore maxChunks p true recorded preroll block).1 =
      dequeAppend maxChunks recorded block := rfl

/-- `AudioRecorder.stop`: concatenate all recorded chunks into one sample
array, or `None` when the buffer is empty. -/
def stopRecording (recorded : List (List α)) : Option (List α) :=
  if recorded.isEmpty then none else some recorded.join

theorem dequeAppend_length_le (m : ℕ) (q : List α) (x : α) (h : q.length ≤ m) :
    (dequeAppend (some m) q x).length ≤ m := by
  simp only [dequeAppend]
  by_cases hlt : q.length < m
  · rw [if_pos hlt]
    simp only [List.length_append, List.length_singleton]
    omega
  · rw [if_neg hlt]
    simp only [List.length_drop, List.length_append, List.length_singleton]
    omega

theorem foldl_dequeAppend_length_le (m : ℕ) :
    ∀ (blocks q : List (List α)), q.length ≤ m →
      (blocks.foldl (dequeAppend (some m)) q).length ≤ m := by
  intro blocks
  induction blocks with
  | nil => intro q h; exact h
  | cons b t ih =>
    intro q h
    exact ih (dequeAppend (some m) q b) (dequeAppend_length_le m q b h)

theorem foldl_dequeAppend_no_drop (m : ℕ) :
    ∀ (blocks q : List (List α)), q.length + blocks.length ≤ m →
      blocks.foldl (dequeAppend (some m)) q = q ++ blocks := by
  intro blocks
  induction blocks with
  | nil => intro q _; simp
  | cons b t ih =>
    intro q h
    have hb : dequeAppend (some m) q b = q ++ [b] := by
      simp only [dequeAppend]
      rw [if_pos (by simp at h ⊢; omega)]
    simp only [List.foldl_cons, hb]
    rw [ih (q ++ [b]) (by simp at h ⊢; omega)]
    simp

theorem mem_foldl_dequeAppend (m : Option ℕ) :
    ∀ (blocks q : List (List α)) (x : List α),
      x ∈ blocks.foldl (dequeAppend m) q → x ∈ q ∨ x ∈ blocks := by
  intro blocks
  induction blocks with
  | nil => intro q x hx; exact Or.inl hx
  | cons b t ih =>
    intro q x hx
    rcases ih (dequeAppend m q b) x hx with h | h
    · have hqb : x ∈ q ++ [b] := by
        cases m with
        | none => exact h
        | some m =>
          simp only [dequeAppend] at h
          by_cases hlt : q.length < m
          · rw [if_pos hlt] at h; exact h
          · rw [if_neg hlt] at h; exact List.mem_of_mem_drop h
      rcases List.mem_append.mp hqb with h1 | h1
      · exact Or.inl h1
      · exact Or.inr (by simp at h1; simp [h1])
    · exact Or.inr (List.mem_cons_of_mem b h)

theorem list_sum_const (l : List ℕ) (m : ℕ) (h : ∀ x ∈ l, x = m) :
    l.sum = l.length * m := by
  induction l with
  | nil => simp
  | cons a t ih =>
    have ha : a = m := h a (List.mem_cons_self a t)
    have ht := ih fun x hx => h x (List.mem_cons_of_mem a hx)
    simp only [List.sum_cons, List.length_cons, ha, ht]
    ring

/-- **C3**: with a configured maximum duration, the recording buffer is a
deque capped at `max 1 ⌈max_duration × sample_rate / blocksize⌉` blocks — at
least `max_duration × sample_rate` samples.  As long as the number of
delivered blocks stays within the cap (which the Orchestrator's watchdog
auto-stop ensures), every block delivered by the audio callback is appended
and none is discarded, and `stop()` concatenates exactly the delivered blocks
in order; the buffer never holds more blocks (or, for `blocksize`-sized
blocks, more samples) than the cap. -/
theorem recordingBuffer_spec (maxSec rate blocksize : ℕ) (hms : 0 < maxSec)
    (hbs : 0 < blocksize) :
    ∃ c, computeMaxChunks maxSec rate blocksize = some c ∧
      maxSec * rate ≤ c * blocksize ∧
      (∀ blocks : List (List α), blocks.length ≤ c →
        recordBuffer (some c) blocks = blocks) ∧
      (∀ blocks : List (List α), blocks ≠ [] → blocks.length ≤ c →
        stopRecording (recordBuffer (some c) blocks) = some blocks.join) ∧
      (∀ blocks : List (List α), (recordBuffer (some c) blocks).length ≤ c) ∧
      (∀ blocks : List (List α), (∀ b ∈ blocks, b.length = blocksize) →
        ((recordBuffer (some c) blocks).join).length ≤ c * blocksize) := by
  have hmax : max 1 maxSec = maxSec := max_eq_right hms
  refine ⟨max 1 ((maxSec * rate + blocksize - 1) / blocksize), ?_, ?_, ?_, ?_, ?_, ?_⟩
  · simp only [computeMaxChunks, hmax, if_neg (by omega : ¬ maxSec = 0)]
  · have h := Nat.lt_mul_div_succ (maxSec * rate + blocksize - 1) hbs
    rw [Nat.mul_succ] at h
    by_cases hd : (maxSec * rate + blocksize - 1) / blocksize = 0
    · rw [hd] at h ⊢
      simp only [Nat.max_eq_left (Nat.zero_le 1), Nat.one_mul]
      omega
    · rw [max_eq_right (Nat.one_le_iff_ne_zero.mpr hd),
        Nat.mul_comm ((maxSec * rate + blocksize - 1) / blocksize) blocksize]
      omega
  · intro blocks h
    exact foldl_dequeAppend_no_drop _ blocks [] (by simpa using h)
  · intro blocks hne h
    have hb : recordBuffer (some (max 1 ((maxSec * rate + blocksize - 1) / blocksize))) blocks
        = blocks := foldl_dequeAppend_no_drop _ blocks [] (by simpa using h)
    rw [hb]
    simp only [stopRecording]
    rw [if_neg (isEmpty_false_of_ne_nil blocks hne)]
  · intro blocks
    exact foldl_dequeAppend_length_le _ blocks [] (by simp)
  · intro blocks hlen
    rw [List.length_join]
    have hmem : ∀ x ∈ (recordBuffer
        (some (max 1 ((maxSec * rate + blocksize - 1) / blocksize))) blocks).map
          List.length, x = blocksize := by
      intro x hx
      rw [List.mem_map] at hx
      obtain ⟨b, hb, rfl⟩ := hx
      rcases mem_foldl_dequeAppend _ blocks [] b hb with h | h
      · simp at h
      · exact hlen b h
    rw [list_sum_const _ _ hmem, List.length_map]
    exact Nat.mul_le_mul_right _ (foldl_dequeAppend_length_le _ blocks [] (by simp))

/-- Witness for `recordingBuffer_spec`: 2 s at 16 kHz with blocksize 1024. -/
theorem recordingBuffer_spec_witness :
    0 < 2 ∧ 0 < 1024 ∧
    ∃ c, computeMaxChunks 2 16000 1024 = some c ∧
      2 * 16000 ≤ c * 1024 ∧
      (∀ blocks : List (List ℕ), blocks.length ≤ c →
        recordBuffer (some c) blocks = blocks) ∧
      (∀ blocks : List (List ℕ), blocks ≠ [] → blocks.length ≤ c →
        stopRecording (recordBuffer (some c) blocks) = some blocks.join) ∧
      (∀ blocks : List (List ℕ), (recordBuffer (some c) blocks).length ≤ c) ∧
      (∀ blocks : List (List ℕ), (∀ b ∈ blocks, b.length = 1024) →
        ((recordBuffer (some c) blocks).join).length ≤ c * 1024) :=
  ⟨by decide, by decide, recordingBuffer_spec 2 16000 1024 (by decide) (by decide)⟩

/-! ## Hotkey listener (`HotkeyListener`, hotkey.py)

Keys are embedded as `ℕ` (canonical key identities after `_normalize_key`);
wall-clock instants (`time.time()`) as `ℚ`.  `_on_press`/`_on_release` below
are the bodies of the pynput callbacks after normalization; an emitted signal
models the callback handed to the dispatch queue. -/

def TOGGLE_DEBOUNCE_SECONDS : ℚ := 3 / 10

inductive HotkeyMode where
  | pushToTalk
  | toggle
  deriving DecidableEq

inductive Sig where
  | start
  | stop
  deriving DecidableEq

structure HKState where
  hotkeyKeys : Finset ℕ
  mode : HotkeyMode
  pressedKeys : Finset ℕ
  isRecording : Bool
  hotkeyActive : Bool
  lastToggleTime : ℚ
  deriving DecidableEq

/-- `HotkeyListener.__init__`: empty press state, not recording, not active,
last toggle time 0. -/
def initHKState (hotkeyKeys : Finset ℕ) (mode : HotkeyMode) : HKState :=
  { hotkeyKeys := hotkeyKeys, mode := mode, pressedKeys := ∅,
    isRecording := false, hotkeyActive := false, lastToggleTime := 0 }

/-- `HotkeyListener._on_press` (after key normalization), at wall-clock
instant `now`: add the key, and if the whole hotkey combination is now held
and was not already active, mark active and evaluate the interaction mode. -/
def onPress (s : HKState) (k : ℕ) (now : ℚ) : HKState × Option Sig :=
  let pressed := insert k s.pressedKeys
  if s.hotkeyKeys ⊆ pressed then
    if s.hotkeyActive then ({ s with pressedKeys := pressed }, none)
    else
      let s1 := { s with pressedKeys := pressed, hotkeyActive := true }
      match s.mode with
      | .toggle =>
        if now - s.lastToggleTime < TOGGLE_DEBOUNCE_SECONDS then (s1, none)
        else
          if !s.isRecording then
            ({ s1 with lastToggleTime := now, isRecording := true }, some .start)
          else
            ({ s1 with lastToggleTime := now, isRecording := false }, some .stop)
      | .pushToTalk =>
        if !s.isRecording then ({ s1 with isRecording := true }, some .start)
        else (s1, none)
  else ({ s with pressedKeys := pressed }, none)

/-- `HotkeyListener._on_release` (after key normalization): remove the key,
clear the active flag if the key belongs to the hotkey, and in push-to-talk
mode stop recording when a hotkey key is released. -/
def onRelease (s : HKState) (k : ℕ) : HKState × Option Sig :=
  let pressed := s.pressedKeys.erase k
  let isHotkeyKey := k ∈ s.hotkeyKeys
  let s1 := { s with pressedKeys := pressed,
                     hotkeyActive := if isHotkeyKey then false else s.hotkeyActive }
  if s.mode = .pushToTalk ∧ s.isRecording then
    if isHotkeyKey then ({ s1 with isRecording := false }, some .stop)
    else (s1, none)
  else (s1, none)

inductive HKEvent where
  | press (k : ℕ) (time : ℚ)
  | release (k : ℕ)

def hkStep (s : HKState) : HKEvent → HKState × Option Sig
  | .press k t => onPress s k t
  | .release k => onRelease s k

/-- Run a sequence of key events, collecting the emitted Start/Stop signals
in order. -/
def runHotkey (s : HKState) : List HKEvent → HKState × List Sig
  | [] => (s, [])
  | e :: es =>
    let s1 := hkStep s e
    let s2 := runHotkey s1.1 es
    (s2.1, s1.2.toList ++ s2.2)

theorem onPress_of_active (s : HKState) (k : ℕ) (t : ℚ)
    (hsub : s.hotkeyKeys ⊆ insert k s.pressedKeys) (hact : s.hotkeyActive = true) :
    onPress s k t = ({ s with pressedKeys := insert k s.pressedKeys }, none) := by
  simp only [onPress, if_pos hsub, hact, if_true]

theorem onPress_emits_none_of_active (s : HKState) (k : ℕ) (t : ℚ)
    (hact : s.hotkeyActive = true) : (onPress s k t).2 = none := by
  by_cases hsub : s.hotkeyKeys ⊆ insert k s.pressedKeys
  · rw [onPress_of_active s k t hsub hact]
  · simp only [onPress, if_neg hsub]

theorem runHotkey_presses_of_active :
    ∀ (ps : List (ℕ × ℚ)) (s : HKState), s.hotkeyActive = true →
      s.hotkeyKeys ⊆ s.pressedKeys →
      (runHotkey s (ps.map fun p => HKEvent.press p.1 p.2)).2 = [] ∧
      (runHotkey s (ps.map fun p => HKEvent.press p.1 p.2)).1.hotkeyActive = true ∧
      (runHotkey s (ps.map fun p => HKEvent.press p.1 p.2)).1.isRecording = s.isRecording := by
  intro ps
  induction ps with
  | nil => intro s hact _; exact ⟨rfl, hact, rfl⟩
  | cons p rest ih =>
    intro s hact hsub
    have hsub2 : s.hotkeyKeys ⊆ insert p.1 s.pressedKeys :=
      hsub.trans (Finset.subset_insert _ _)
    have hstep : hkStep s (HKEvent.press p.1 p.2) =
        ({ s with pressedKeys := insert p.1 s.pressedKeys }, none) :=
      onPress_of_active s p.1 p.2 hsub2 hact
    obtain ⟨h1, h2, h3⟩ := ih { s with pressedKeys := insert p.1 s.pressedKeys } hact hsub2
    simp only [List.map_cons, runHotkey, hstep, Option.toList_none, List.nil_append]
    exact ⟨h1, h2, h3⟩

/-- The `_on_press` run over a press sequence whose keys all belong to the
hotkey and which together cover it, from an inactive, non-recording
push-to-talk state that does not yet hold the full combination: exactly one
Start is emitted, and the listener ends active and recording. -/
theorem runHotkey_presses_covering :
    ∀ (ps : List (ℕ × ℚ)) (s : HKState), s.mode = .pushToTalk →
      s.hotkeyActive = false → s.isRecording = false →
      ¬ s.hotkeyKeys ⊆ s.pressedKeys →
      (∀ p ∈ ps, p.1 ∈ s.hotkeyKeys) →
      s.hotkeyKeys ⊆ s.pressedKeys ∪ (ps.map Prod.fst).toFinset →
      (runHotkey s (ps.map fun p => HKEvent.press p.1 p.2)).2 = [Sig.start] ∧
      (runHotkey s (ps.map fun p => HKEvent.press p.1 p.2)).1.hotkeyActive = true ∧
      (runHotkey s (ps.map fun p => HKEvent.press p.1 p.2)).1.isRecording = true := by
  intro ps
  induction ps with
  | nil =>
    intro s _ _ _ hnsub _ hcover
    simp only [List.map_nil, List.toFinset_nil, Finset.union_empty] at hcover
    exact absurd hcover hnsub
  | cons p rest ih =>
    intro s hmode hact hrec hnsub hkeys hcover
    by_cases hsub1 : s.hotkeyKeys ⊆ insert p.1 s.pressedKeys
    · -- this press completes the combination: Start is emitted here
      have hstep : hkStep s (HKEvent.press p.1 p.2) =
          ({ s with pressedKeys := insert p.1 s.pressedKeys, hotkeyActive := true,
                    isRecording := true }, some Sig.start) := by
        simp only [hkStep, onPress, if_pos hsub1, hact, Bool.false_eq_true, if_false, hmode,
          hrec, Bool.not_false, if_true]
      obtain ⟨h1, h2, h3⟩ := runHotkey_presses_of_active rest
        { s with pressedKeys := insert p.1 s.pressedKeys, hotkeyActive := true,
                 isRecording := true } rfl hsub1
      simp only [List.map_cons, runHotkey, hstep, Option.toList_some, List.singleton_append]
      exact ⟨by rw [h1], h2, h3⟩
    · -- the combination is still incomplete: nothing is emitted yet
      have hstep : hkStep s (HKEvent.press p.1 p.2) =
          ({ s with pressedKeys := insert p.1 s.pressedKeys }, none) := by
        simp only [hkStep, onPress, if_neg hsub1]
      have hcover2 : s.hotkeyKeys ⊆
          insert p.1 s.pressedKeys ∪ (rest.map Prod.fst).toFinset := by
        intro x hx
        have := hcover hx
        simp only [List.map_cons, List.toFinset_cons, Finset.mem_union, Finset.mem_insert] at this ⊢
        tauto
      obtain ⟨h1, h2, h3⟩ := ih { s with pressedKeys := insert p.1 s.pressedKeys }
        hmode hact hrec hsub1 (fun q hq => hkeys q (List.mem_cons_of_mem p hq)) hcover2
      simp only [List.map_cons, runHotkey, hstep, Option.toList_none, List.nil_append]
      exact ⟨h1, h2, h3⟩

/-- **C6**: in push-to-talk mode, for any configured (nonempty) hotkey key
set, any press sequence whose keys belong to the set and which together hold
exactly those keys makes the listener active exactly once and emits exactly
one Start; further press events while active emit nothing. -/
theorem pushToTalk_single_start (H : Finset ℕ) (hne : H.Nonempty)
    (ps : List (ℕ × ℚ)) (hkeys : ∀ p ∈ ps, p.1 ∈ H)
    (hcover : H ⊆ (ps.map Prod.fst).toFinset) :
    (runHotkey (initHKState H .pushToTalk) (ps.map fun p => HKEvent.press p.1 p.2)).2 =
      [Sig.start] ∧
    (runHotkey (initHKState H .pushToTalk)
      (ps.map fun p => HKEvent.press p.1 p.2)).1.hotkeyActive = true ∧
    (runHotkey (initHKState H .pushToTalk)
      (ps.map fun p => HKEvent.press p.1 p.2)).1.isRecording = true ∧
    (∀ k t, (onPress (runHotkey (initHKState H .pushToTalk)
      (ps.map fun p => HKEvent.press p.1 p.2)).1 k t).2 = none) := by
  have hnsub : ¬ H ⊆ (initHKState H .pushToTalk).pressedKeys := by
    simp only [initHKState]
    intro h
    obtain ⟨x, hx⟩ := hne
    exact absurd (h hx) (Finset.not_mem_empty x)
  obtain ⟨h1, h2, h3⟩ := runHotkey_presses_covering ps (initHKState H .pushToTalk)
    rfl rfl rfl hnsub hkeys (by simpa [initHKState] using hcover)
  exact ⟨h1, h2, h3, fun k t => onPress_emits_none_of_active _ k t h2⟩

/-- Witness for `pushToTalk_single_start`: hotkey `{ctrl, space}` (encoded
`{0, 1}`) pressed in reverse order. -/
theorem pushToTalk_single_start_witness :
    (runHotkey (initHKState {0, 1} .pushToTalk)
      ([((1 : ℕ), (0 : ℚ)), (0, 1)].map fun p => HKEvent.press p.1 p.2)).2 = [Sig.start] :=
  (pushToTalk_single_start {0, 1} (by decide) [((1 : ℕ), (0 : ℚ)), (0, 1)]
    (by decide) (by decide)).1

/-- **C5**: in toggle mode, a qualifying hotkey match within the 300 ms
debounce window after the previous accepted toggle trigger is silently
discarded — no signal is emitted, the recording flag and the last-trigger
timestamp are unchanged (so nothing is queued for later).  Concretely, two
qualifying matches 0.2 s apart collapse to a single Start, while two matches
0.5 s apart emit Start then Stop. -/
theorem toggle_debounce_spec :
    (∀ (s : HKState) (k : ℕ) (t : ℚ), s.mode = .toggle →
      s.hotkeyKeys ⊆ insert k s.pressedKeys → s.hotkeyActive = false →
      t - s.lastToggleTime < TOGGLE_DEBOUNCE_SECONDS →
      (onPress s k t).2 = none ∧
      (onPress s k t).1.isRecording = s.isRecording ∧
      (onPress s k t).1.lastToggleTime = s.lastToggleTime) ∧
    (runHotkey (initHKState {0} .toggle)
      [HKEvent.press 0 1, HKEvent.release 0, HKEvent.press 0 (6 / 5)]).2 = [Sig.start] ∧
    (runHotkey (initHKState {0} .toggle)
      [HKEvent.press 0 1, HKEvent.release 0, HKEvent.press 0 (3 / 2)]).2 =
        [Sig.start, Sig.stop] := by
  refine ⟨?_, ?_, ?_⟩
  · intro s k t hmode hsub hact hdeb
    simp only [onPress, if_pos hsub, hact, Bool.false_eq_true, if_false, hmode, if_pos hdeb]
    refine ⟨by trivial, by trivial, by trivial⟩
  · simp only [runHotkey, hkStep, onPress, onRelease, initHKState, TOGGLE_DEBOUNCE_SECONDS]
    norm_num [Finset.subset_iff,
      show HotkeyMode.toggle ≠ HotkeyMode.pushToTalk from fun h => HotkeyMode.noConfusion h]
  · simp only [runHotkey, hkStep, onPress, onRelease, initHKState, TOGGLE_DEBOUNCE_SECONDS]
    norm_num [Finset.subset_iff,
      show HotkeyMode.toggle ≠ HotkeyMode.pushToTalk from fun h => HotkeyMode.noConfusion h]

/-- Witness for `toggle_debounce_spec`: a qualifying match 0.1 s after the
previous accepted trigger emits nothing. -/
theorem toggle_debounce_spec_witness :
    (onPress { hotkeyKeys := {0}, mode := .toggle, pressedKeys := ∅, isRecording := true,
               hotkeyActive := false, lastToggleTime := 1 } 0 (11 / 10)).2 = none :=
  (toggle_debounce_spec.1
    { hotkeyKeys := {0}, mode := .toggle, pressedKeys := ∅, isRecording := true,
      hotkeyActive := false, lastToggleTime := 1 } 0 (11 / 10)
    rfl (by decide) rfl (by norm_num [TOGGLE_DEBOUNCE_SECONDS])).1

/-! ## Daemon orchestration (`STTDaemon`, daemon_service.py)

The daemon's mutable state is the `_recording` boolean and the explicit
`_is_transcribing` single-flight flag.  Side effects (sounds, recorder
calls, status prints, spawning the background transcription thread) are
collected as an explicit effect list. -/

structure DaemonConfig where
  sampleRate : ℕ
  maxRecordingSeconds : ℤ
  soundEffects : Bool

structure DaemonState where
  recording : Bool
  isTranscribing : Bool
  deriving DecidableEq

inductive Eff where
  | sound (name : String)
  | recorderStart
  | recorderStop
  | status (msg : String)
  | statusClear
  | spawn (audioLen : ℕ)
  deriving DecidableEq

/-- `STTDaemon._on_recording_start`; `recorderOk` is the result of
`self._recorder.start()`.  A Start while a transcription is in flight is
rejected outright: the state is untouched and only a warning sound plays. -/
def onRecordingStart (cfg : DaemonConfig) (s : DaemonState) (recorderOk : Bool) :
    DaemonState × List Eff :=
  if s.isTranscribing then
    (s, if cfg.soundEffects then [Eff.sound "warning"] else [])
  else if s.recording then (s, [])
  else if recorderOk then
    ({ s with recording := true },
      [Eff.recorderStart, Eff.status "● Recording..."] ++
        (if cfg.soundEffects then [Eff.sound "start"] else []))
  else
    ({ s with recording := false },
      [Eff.recorderStart] ++ (if cfg.soundEffects then [Eff.sound "error"] else []))

/-- `int(0.2 * sample_rate)`: the 200 ms minimum-duration threshold in
samples (3200 at 16 kHz; exact arithmetic here, Python uses a float). -/
def minSamples (sampleRate : ℕ) : ℕ := 2 * sampleRate / 10

/-- `STTDaemon._on_recording_stop`; `audioLen` is the length of the array
returned by `self._recorder.stop()` (`none` when it returned `None`). -/
def onRecordingStop (cfg : DaemonConfig) (s : DaemonState) (audioLen : Option ℕ) :
    DaemonState × List Eff :=
  if !s.recording then (s, [])
  else
    let s1 : DaemonState := { s with recording := false }
    let stopEffs := [Eff.recorderStop] ++ (if cfg.soundEffects then [Eff.sound "stop"] else [])
    match audioLen with
    | some n =>
      if minSamples cfg.sampleRate ≤ n then
        if s1.isTranscribing then
          (s1, stopEffs ++ (if cfg.soundEffects then [Eff.sound "warning"] else []))
        else
          ({ s1 with isTranscribing := true },
            stopEffs ++ [Eff.status "◐ Transcribing...", Eff.spawn n])
      else if 0 < n then
        (s1, stopEffs ++ [Eff.status "○ Too short"] ++
          (if cfg.soundEffects then [Eff.sound "warning"] else []))
      else
        (s1, stopEffs ++ (if cfg.soundEffects then [Eff.sound "warning"] else []) ++
          [Eff.statusClear])
    | none =>
      (s1, stopEffs ++ (if cfg.soundEffects then [Eff.sound "warning"] else []) ++
        [Eff.statusClear])

/-- `STTDaemon._check_max_recording_time`, at elapsed wall-clock time
`elapsed`; `audioLen` is what the recorder would hand to
`_on_recording_stop` if the auto-stop fires. -/
def checkMaxRecordingTime (cfg : DaemonConfig) (s : DaemonState) (elapsed : ℚ)
    (audioLen : Option ℕ) : DaemonState × List Eff :=
  if !s.recording then (s, [])
  else
    let warnEffs :=
      if 30 < cfg.maxRecordingSeconds ∧
          (cfg.maxRecordingSeconds : ℚ) - 30 ≤ elapsed ∧
          elapsed < (cfg.maxRecordingSeconds : ℚ) - 29 ∧ cfg.soundEffects
        then [Eff.sound "warning"] else []
    if (cfg.maxRecordingSeconds : ℚ) ≤ elapsed then
      let r := onRecordingStop cfg s audioLen
      (r.1, warnEffs ++ r.2)
    else (s, warnEffs)

inductive DEvent where
  | start (recorderOk : Bool)
  | stop (audioLen : Option ℕ)
  | watchdog (elapsed : ℚ) (audioLen : Option ℕ)
  | transcriptionDone

/-- One daemon state transition.  `transcriptionDone` is the `finally:`
clause of `_do_transcription` clearing the single-flight flag. -/
def daemonStep (cfg : DaemonConfig) (s : DaemonState) : DEvent → DaemonState × List Eff
  | .start ok => onRecordingStart cfg s ok
  | .stop a => onRecordingStop cfg s a
  | .watchdog e a => checkMaxRecordingTime cfg s e a
  | .transcriptionDone => ({ s with isTranscribing := false }, [])

def runDaemon (cfg : DaemonConfig) (s : DaemonState) : List DEvent → DaemonState × List Eff
  | [] => (s, [])
  | e :: es =>
    let r := daemonStep cfg s e
    let r2 := runDaemon cfg r.1 es
    (r2.1, r.2 ++ r2.2)

/-- The whisper artifact tokens filtered by `STTDaemon._do_transcription`. -/
def whisperArtifacts : List (List Char) :=
  ["[BLANK_AUDIO]".toList, "[MUSIC]".toList, "[APPLAUSE]".toList, "[LAUGHTER]".toList,
   "(BLANK_AUDIO)".toList, "(MUSIC)".toList, "(APPLAUSE)".toList, "(LAUGHTER)".toList,
   "[inaudible]".toList, "(inaudible)".toList, "[silence]".toList, "(silence)".toList]

/-- Python `text.startswith(p)`. -/
def pyStartsWith (s p : List Char) : Bool := p.isPrefixOf s

/-- Python `text.endswith(p)`. -/
def pyEndsWith (s p : List Char) : Bool := p.isSuffixOf s

/-- The result-filtering tail of `STTDaemon._do_transcription` after the
engine returns `raw`: `text = text.strip()`; artifacts and any
`[`-bracketed token are treated as no speech (Python precedence:
`text in whisper_artifacts or (text.startswith("[") and text.endswith("]"))`);
`some` is the text delivered to the output sink, `none` the "no speech"
path where nothing is delivered. -/
def processTranscript (raw : List Char) : Option (List Char) :=
  let text := pyStrip raw
  let text2 :=
    if text ∈ whisperArtifacts ∨
        (pyStartsWith text "[".toList ∧ pyEndsWith text "]".toList) then ([] : List Char)
    else text
  if text2.isEmpty then none else some text2

theorem onRecordingStop_keeps_flag (cfg : DaemonConfig) (s : DaemonState) (a : Option ℕ)
    (h : s.isTranscribing = true) : (onRecordingStop cfg s a).1.isTranscribing = true := by
  rcases a with _ | n <;>
    · simp only [onRecordingStop]
      split_ifs <;> simp [h]

/-- **C4 counterexample**: with `max_seconds = 40` and periodic checks at
elapsed 10 s and 10.5 s (both inside the `[max−30, max−29)` window, as happens
with the main loop's 0.1 s poll period), the warning signal fires twice, not
exactly once. -/
theorem watchdog_warning_twice :
    (runDaemon { sampleRate := 16000, maxRecordingSeconds := 40, soundEffects := true }
      { recording := true, isTranscribing := false }
      [DEvent.watchdog 10 none, DEvent.watchdog (21 / 2) none]).2 =
      [Eff.sound "warning", Eff.sound "warning"] := by
  norm_num [runDaemon, daemonStep, checkMaxRecordingTime, onRecordingStop]

/-- **C4** (amended): while recording with `max_seconds > 30` and sound
effects on, the periodic watchdog check fires the warning signal at *every*
check whose elapsed time lies in `[max_seconds − 30, max_seconds − 29)` (so
once per check landing in that one-second window, not once overall); a check
with elapsed time outside the window and below `max_seconds` does nothing;
once elapsed time reaches `max_seconds`, the check behaves exactly as
`_on_recording_stop` — the same handler a hotkey Stop would invoke. -/
theorem watchdog_spec (cfg : DaemonConfig) (s : DaemonState) (elapsed : ℚ)
    (a : Option ℕ) (hrec : s.recording = true) :
    (30 < cfg.maxRecordingSeconds →
      (cfg.maxRecordingSeconds : ℚ) - 30 ≤ elapsed →
      elapsed < (cfg.maxRecordingSeconds : ℚ) - 29 →
      cfg.soundEffects = true →
      elapsed < (cfg.maxRecordingSeconds : ℚ) →
      checkMaxRecordingTime cfg s elapsed a = (s, [Eff.sound "warning"])) ∧
    (¬ ((cfg.maxRecordingSeconds : ℚ) - 30 ≤ elapsed ∧
        elapsed < (cfg.maxRecordingSeconds : ℚ) - 29) →
      elapsed < (cfg.maxRecordingSeconds : ℚ) →
      checkMaxRecordingTime cfg s elapsed a = (s, [])) ∧
    ((cfg.maxRecordingSeconds : ℚ) ≤ elapsed →
      checkMaxRecordingTime cfg s elapsed a = onRecordingStop cfg s a) := by
  refine ⟨?_, ?_, ?_⟩
  · intro h30 hlo hhi hsfx hlt
    simp only [checkMaxRecordingTime, hrec, Bool.not_true, Bool.false_eq_true, if_false,
      if_pos (show _ ∧ _ ∧ _ ∧ _ from ⟨h30, hlo, hhi, hsfx⟩), if_neg (not_le.mpr hlt)]
  · intro hwin hlt
    have hw : ¬ (30 < cfg.maxRecordingSeconds ∧
        (cfg.maxRecordingSeconds : ℚ) - 30 ≤ elapsed ∧
        elapsed < (cfg.maxRecordingSeconds : ℚ) - 29 ∧ cfg.soundEffects = true) :=
      fun h => hwin ⟨h.2.1, h.2.2.1⟩
    simp only [checkMaxRecordingTime, hrec, Bool.not_true, Bool.false_eq_true, if_false,
      if_neg hw, if_neg (not_le.mpr hlt)]
  · intro hge
    have hw : ¬ (30 < cfg.maxRecordingSeconds ∧
        (cfg.maxRecordingSeconds : ℚ) - 30 ≤ elapsed ∧
        elapsed < (cfg.maxRecordingSeconds : ℚ) - 29 ∧ cfg.soundEffects = true) := by
      rintro ⟨-, -, hhi, -⟩
      have : (cfg.maxRecordingSeconds : ℚ) - 29 ≤ (cfg.maxRecordingSeconds : ℚ) := by linarith
      linarith
    simp only [checkMaxRecordingTime, hrec, Bool.not_true, Bool.false_eq_true, if_false,
      if_neg hw, if_pos hge, List.nil_append]

/-- Witness for `watchdog_spec`: `max_seconds = 40`, elapsed 10 s, recording:
the check plays exactly one warning and issues no Stop. -/
theorem watchdog_spec_witness :
    checkMaxRecordingTime { sampleRate := 16000, maxRecordingSeconds := 40, soundEffects := true }
      { recording := true, isTranscribing := false } 10 none =
      ({ recording := true, isTranscribing := false }, [Eff.sound "warning"]) :=
  (watchdog_spec { sampleRate := 16000, maxRecordingSeconds := 40, soundEffects := true }
    { recording := true, isTranscribing := false } 10 none rfl).1
    (by norm_num) (by norm_num) (by norm_num) rfl (by norm_num)

/-- **C7**: at most one transcription is ever in flight: a Start arriving
while the `_is_transcribing` flag is set leaves the state unchanged (no
recording begins), schedules no transcription and starts no recorder —
it only plays a warning sound — and the flag (a field separate from the
`recording` boolean) is preserved by every event other than the completion
of the in-flight transcription task, which alone clears it. -/
theorem single_flight_spec (cfg : DaemonConfig) (s : DaemonState)
    (h : s.isTranscribing = true) :
    (∀ ok, onRecordingStart cfg s ok =
      (s, if cfg.soundEffects then [Eff.sound "warning"] else [])) ∧
    (∀ ok e, e ∈ (onRecordingStart cfg s ok).2 →
      (∀ n, e ≠ Eff.spawn n) ∧ e ≠ Eff.recorderStart) ∧
    (∀ ev, ev ≠ DEvent.transcriptionDone →
      (daemonStep cfg s ev).1.isTranscribing = true) ∧
    (daemonStep cfg s DEvent.transcriptionDone).1.isTranscribing = false := by
  refine ⟨?_, ?_, ?_, rfl⟩
  · intro ok
    simp only [onRecordingStart, h, if_true]
  · intro ok e he
    simp only [onRecordingStart, h, if_true] at he
    rcases hsfx : cfg.soundEffects with _ | _ <;> rw [hsfx] at he <;> simp at he
    simp [he]
  · intro ev hne
    cases ev with
    | start ok =>
      show (onRecordingStart cfg s ok).1.isTranscribing = true
      simp only [onRecordingStart, h, if_true]
    | stop a => exact onRecordingStop_keeps_flag cfg s a h
    | watchdog e a =>
      show (checkMaxRecordingTime cfg s e a).1.isTranscribing = true
      simp only [checkMaxRecordingTime]
      split_ifs <;> first
        | exact h
        | exact onRecordingStop_keeps_flag cfg s a h
    | transcriptionDone => exact absurd rfl hne

/-- Witness for `single_flight_spec`: a Start while transcribing (sound
effects on) is rejected with only a warning sound. -/
theorem single_flight_spec_witness :
    onRecordingStart { sampleRate := 16000, maxRecordingSeconds := 120, soundEffects := true }
      { recording := false, isTranscribing := true } true =
      ({ recording := false, isTranscribing := true }, [Eff.sound "warning"]) :=
  (single_flight_spec { sampleRate := 16000, maxRecordingSeconds := 120, soundEffects := true }
    { recording := false, isTranscribing := true } rfl).1 true

/-- **C9**: on Stop at 16 kHz, a returned utterance of fewer than
`minSamples 16000 = 3200` samples (200 ms) never reaches the transcription
pipeline: a nonempty too-short utterance is discarded with the distinct
"Too short" status, an empty or `None` utterance just returns to ready, and
no `spawn` is emitted for any utterance under 3200 samples; an utterance of
at least 3200 samples (with no transcription in flight) is handed to a
background transcription task. -/
theorem min_duration_filter_spec (cfg : DaemonConfig) (s : DaemonState)
    (hrec : s.recording = true) (hnt : s.isTranscribing = false)
    (hsr : cfg.sampleRate = 16000) :
    minSamples cfg.sampleRate = 3200 ∧
    (∀ n, 0 < n → n < 3200 →
      onRecordingStop cfg s (some n) =
        ({ s with recording := false },
          [Eff.recorderStop] ++ (if cfg.soundEffects then [Eff.sound "stop"] else []) ++
            [Eff.status "○ Too short"] ++
            (if cfg.soundEffects then [Eff.sound "warning"] else []))) ∧
    (∀ n, n < 3200 → ∀ m, Eff.spawn m ∉ (onRecordingStop cfg s (some n)).2) ∧
    (∀ m, Eff.spawn m ∉ (onRecordingStop cfg s none).2) ∧
    (∀ n, 3200 ≤ n →
      (onRecordingStop cfg s (some n)).1.isTranscribing = true ∧
      Eff.spawn n ∈ (onRecordingStop cfg s (some n)).2) := by
  have hmin : minSamples cfg.sampleRate = 3200 := by rw [hsr]; decide
  refine ⟨hmin, ?_, ?_, ?_, ?_⟩
  · intro n h0 hlt
    simp only [onRecordingStop, hrec, Bool.not_true, Bool.false_eq_true, if_false, hmin,
      if_neg (by omega : ¬ 3200 ≤ n), if_pos h0]
  · intro n hlt m
    simp only [onRecordingStop, hrec, Bool.not_true, Bool.false_eq_true, if_false, hmin,
      if_neg (by omega : ¬ 3200 ≤ n)]
    split_ifs with h0 hs <;> rcases hsfx : cfg.soundEffects with _ | _ <;> simp [hsfx]
  · intro m
    simp only [onRecordingStop, hrec, Bool.not_true, Bool.false_eq_true, if_false]
    rcases hsfx : cfg.soundEffects with _ | _ <;> simp [hsfx]
  · intro n hge
    simp only [onRecordingStop, hrec, Bool.not_true, Bool.false_eq_true, if_false, hmin,
      if_pos hge, hnt, if_false]
    rcases hsfx : cfg.soundEffects with _ | _ <;> simp [hsfx, hnt]

/-- Witness for `min_duration_filter_spec`: a 3000-sample utterance (187.5 ms
at 16 kHz) is discarded as too short. -/
theorem min_duration_filter_spec_witness :
    onRecordingStop { sampleRate := 16000, maxRecordingSeconds := 120, soundEffects := false }
      { recording := true, isTranscribing := false } (some 3000) =
      ({ recording := false, isTranscribing := false },
        [Eff.recorderStop] ++ [] ++ [Eff.status "○ Too short"] ++ []) := by
  have h := (min_duration_filter_spec
    { sampleRate := 16000, maxRecordingSeconds := 120, soundEffects := false }
    { recording := true, isTranscribing := false } rfl rfl rfl).2.1 3000
    (by decide) (by decide)
  simpa using h

/-- **C10**: a transcription result whose stripped text is a known non-speech
artifact token, or which both starts with `[` and ends with `]`, is treated
as empty: `_do_transcription` takes the "no speech" path and delivers nothing
to the output sink, even though the engine returned a non-empty string. -/
theorem artifact_filter_spec (raw : List Char)
    (h : pyStrip raw ∈ whisperArtifacts ∨
      (pyStartsWith (pyStrip raw) "[".toList ∧ pyEndsWith (pyStrip raw) "]".toList)) :
    processTranscript raw = none := by
  simp only [processTranscript, if_pos h, List.isEmpty_nil, if_true]

/-- Witness for `artifact_filter_spec`: the engine result `" [BLANK_AUDIO] "`
(non-empty) is delivered nowhere. -/
theorem artifact_filter_spec_witness :
    (pyStrip " [BLANK_AUDIO] ".toList ∈ whisperArtifacts ∨
      (pyStartsWith (pyStrip " [BLANK_AUDIO] ".toList) "[".toList ∧
        pyEndsWith (pyStrip " [BLANK_AUDIO] ".toList) "]".toList)) ∧
    processTranscript " [BLANK_AUDIO] ".toList = none :=
  ⟨by decide, artifact_filter_spec " [BLANK_AUDIO] ".toList (by decide)⟩

/-! ## Whisper engine: model loading and the transcription boundary
(`WhisperEngine.load_model` / `transcribe`)

The outcome of the external `Model(...)` construction is a parameter (the
model weights and the filesystem are outside the program); exceptions inside
the transcription body are `Except.error` values, caught at the `transcribe`
boundary exactly as the Python `try`/`except` does. -/

/-- Python `s.lower()`. -/
def pyLower (s : List Char) : List Char := s.map Char.toLower

/-- Python `sub in s` (substring containment). -/
def containsSub (sub : List Char) : List Char → Bool
  | [] => sub.isEmpty
  | c :: t => sub.isPrefixOf (c :: t) || containsSub sub t

/-- What happened when `load_model` ran: pywhispercpp missing, model file
missing, or the outcome of the `Model(...)` call. -/
inductive LoadOutcome where
  | success
  | notAvailable (importErr : List Char)
  | notFound (path : List Char)
  | runtimeError (msg : List Char)
  | osError (msg : List Char)
  | otherError (msg : List Char)

/-- `WhisperEngine.load_model`: whether the model loaded, paired with the
resulting `_last_error` message (which distinguishes out-of-memory,
disk/filesystem and generic causes). -/
def loadModel (modelName : List Char) (o : LoadOutcome) : Bool × Option (List Char) :=
  match o with
  | .success => (true, none)
  | .notAvailable e => (false, some ("pywhispercpp not installed: ".toList ++ e))
  | .notFound p => (false, some ("Model not found: ".toList ++ p))
  | .runtimeError m =>
    (false, some (if containsSub "out of memory".toList (pyLower m)
      then "Not enough memory for ".toList ++ modelName ++ " model. Try a smaller model.".toList
      else "Runtime error: ".toList ++ m))
  | .osError m =>
    (false, some (if containsSub "no space".toList (pyLower m)
      then "Not enough disk space for model".toList
      else "File system error: ".toList ++ m))
  | .otherError m => (false, some ("Failed to load model: ".toList ++ m))

/-- The outcome of running the whisper model on one chunk in the worker
thread: completed text, a timeout of the bounded future, or an exception. -/
inductive ChunkOutcome where
  | done (text : List Char)
  | timeout
  | raised (msg : List Char)

/-- `WhisperEngine._transcribe_with_timeout`: a completed future yields its
text; `FuturesTimeoutError` is caught, records a last-error and yields the
empty string for the chunk; any other exception propagates to the caller. -/
def transcribeWithTimeout (timeoutSecs : ℕ) (o : ChunkOutcome) :
    Except (List Char) (List Char × Option (List Char)) :=
  match o with
  | .done t => .ok (t, none)
  | .timeout => .ok ([],
      some ("Transcription timed out after ".toList ++ (toString timeoutSecs).toList ++
        "s".toList))
  | .raised m => .error m

/-- The `for i, chunk in enumerate(chunks)` loop of `WhisperEngine.transcribe`:
transcribe every chunk, keeping the non-empty results, an exception aborting
the loop. -/
def runChunks (timeoutSecs : ℕ) (run : List ℚ → ChunkOutcome) :
    List (List ℚ) → List (List Char) → Except (List Char) (List (List Char))
  | [], results => .ok results
  | c :: cs, results =>
    match transcribeWithTimeout timeoutSecs (run c) with
    | .error m => .error m
    | .ok r => runChunks timeoutSecs run cs (if r.1.isEmpty then results else results ++ [r.1])

/-- `WhisperEngine.transcribe`: empty string when the model cannot be loaded;
otherwise chunk the audio, transcribe (a single chunk under one timeout, or
each chunk followed by the dedup join), any exception in the body being
caught and turned into the empty string.  Total by construction: every input
yields a string, never an exception. -/
def transcribe (modelName : List Char) (load : LoadOutcome) (timeoutSecs : ℕ)
    (audio : List ℚ) (sr : ℕ) (run : List ℚ → ChunkOutcome) : List Char :=
  if !(loadModel modelName load).1 then []
  else
    let chunks := chunkAudio audio sr
    let body : Except (List Char) (List Char) :=
      if chunks.length = 1 then
        match transcribeWithTimeout timeoutSecs (run chunks.headI) with
        | .error m => .error m
        | .ok r => .ok r.1
      else
        match runChunks timeoutSecs run chunks [] with
        | .error m => .error m
        | .ok results => .ok (joinChunks results)
    match body with
    | .ok t => t
    | .error _ => []

theorem runChunks_raised (timeoutSecs : ℕ) (run : List ℚ → ChunkOutcome) :
    ∀ (chunks : List (List ℚ)) (results : List (List Char)) (c : List ℚ) (m : List Char),
      c ∈ chunks → run c = ChunkOutcome.raised m →
      ∃ m2, runChunks timeoutSecs run chunks results = .error m2 := by
  intro chunks
  induction chunks with
  | nil => intro results c m hc _; exact absurd hc (List.not_mem_nil c)
  | cons d ds ih =>
    intro results c m hc hr
    rcases hd : run d with t | _ | md
    · rcases List.mem_cons.mp hc with rfl | hc2
      · rw [hd] at hr; exact absurd hr (by simp)
      · simp only [runChunks, hd, transcribeWithTimeout]
        exact ih _ c m hc2 hr
    · rcases List.mem_cons.mp hc with rfl | hc2
      · rw [hd] at hr; exact absurd hr (by simp)
      · simp only [runChunks, hd, transcribeWithTimeout]
        exact ih _ c m hc2 hr
    · exact ⟨md, by simp only [runChunks, hd, transcribeWithTimeout]⟩

/-- **C8**: `transcribe` is total (by construction it returns a string for
every input) and recovers every failure inside its boundary: a model that
cannot be loaded yields the empty string, with a `_last_error` that
distinguishes the out-of-memory, disk/filesystem and generic causes; a
single-chunk timeout yields the empty string (with a timeout last-error,
from `_transcribe_with_timeout`); and an exception raised while transcribing
any chunk is caught, yielding the empty string. -/
theorem transcribe_error_spec (modelName : List Char) (timeoutSecs : ℕ)
    (audio : List ℚ) (sr : ℕ) (run : List ℚ → ChunkOutcome) :
    (∀ load, (loadModel modelName load).1 = false →
      transcribe modelName load timeoutSecs audio sr run = []) ∧
    (∀ m, containsSub "out of memory".toList (pyLower m) = true →
      (loadModel modelName (.runtimeError m)).2 = some ("Not enough memory for ".toList ++
        modelName ++ " model. Try a smaller model.".toList)) ∧
    (∀ m, containsSub "no space".toList (pyLower m) = true →
      (loadModel modelName (.osError m)).2 = some "Not enough disk space for model".toList) ∧
    (∀ m, (loadModel modelName (.otherError m)).2 =
      some ("Failed to load model: ".toList ++ m)) ∧
    (audio.length ≤ 60 * sr → run audio = ChunkOutcome.timeout →
      transcribe modelName .success timeoutSecs audio sr run = []) ∧
    (∀ c m, c ∈ chunkAudio audio sr → run c = ChunkOutcome.raised m →
      transcribe modelName .success timeoutSecs audio sr run = []) := by
  refine ⟨?_, ?_, ?_, ?_, ?_, ?_⟩
  · intro load h
    simp only [transcribe, h, Bool.not_false, if_true]
  · intro m h
    simp only [loadModel, if_pos h]
  · intro m h
    simp only [loadModel, if_pos h]
  · intro m
    rfl
  · intro hlen hrun
    have hchunks : chunkAudio audio sr = [audio] := by
      rw [chunkAudio, if_pos (by simpa [CHUNK_DURATION_SECONDS] using hlen)]
    simp only [transcribe, loadModel, Bool.not_true, Bool.false_eq_true, if_false, hchunks,
      List.length_singleton, List.headI, hrun, transcribeWithTimeout]
    simp
  · intro c m hc hrun
    simp only [transcribe, loadModel, Bool.not_true, Bool.false_eq_true, if_false]
    by_cases hlen : (chunkAudio audio sr).length = 1
    · rw [if_pos hlen]
      obtain ⟨x, hx⟩ := List.length_eq_one.mp hlen
      rw [hx] at hc
      rcases List.mem_singleton.mp hc with rfl
      rw [hx]
      simp only [List.headI, hrun, transcribeWithTimeout]
    · rw [if_neg hlen]
      obtain ⟨m2, hm2⟩ := runChunks_raised timeoutSecs run (chunkAudio audio sr) [] c m hc hrun
      rw [hm2]

/-- Witness for `transcribe_error_spec`: a missing model file yields the
empty string, and an out-of-memory `RuntimeError` is recorded as the
memory-specific last-error. -/
theorem transcribe_error_spec_witness :
    (loadModel "medium-q5_0".toList (.notFound "ggml-medium-q5_0.bin".toList)).1 = false ∧
    transcribe "medium-q5_0".toList (.notFound "ggml-medium-q5_0.bin".toList) 120 [0] 16000
      (fun _ => .done "hi".toList) = [] ∧
    containsSub "out of memory".toList (pyLower "CUDA out of memory".toList) = true ∧
    (loadModel "medium-q5_0".toList (.runtimeError "CUDA out of memory".toList)).2 =
      some ("Not enough memory for ".toList ++ "medium-q5_0".toList ++
        " model. Try a smaller model.".toList) :=
  ⟨rfl,
   (transcribe_error_spec "medium-q5_0".toList 120 [0] 16000 (fun _ => .done "hi".toList)).1
     (.notFound "ggml-medium-q5_0.bin".toList) rfl,
   by decide,
   (transcribe_error_spec "medium-q5_0".toList 120 [0] 16000 (fun _ => .done "hi".toList)).2.1
     "CUDA out of memory".toList (by decide)⟩

end CLD
